import Mathlib

/-!
Shallow embedding of the `stnd.run_with_monitor` job orchestrator
(`job_submission.py`, `job_monitor.py`, `job_manager.py`,
`utility/message_client.py`) together with theorems settling the spec
claims about it.

Python dicts are embedded as association lists in insertion order, the
shared multiprocessing state as explicit record values, and the socket as
an explicit list of receive outcomes.  `stnd/run_with_monitor/job.py`
(`Job`, `JobStatus`, `find_job_idx`, `get_slurm_job_status`,
`Job.process_message`) is not part of the sources; those definitions are
modelled from the spec as marked below.
-/

namespace Stnd

/-- Modelled from the spec: `JobStatus` of the missing `job.py`
("JobStatus ∈ {PENDING, SUBMITTED, RUNNING, COMPLETED, FAILED,
CANCELLED, TIMEOUT}"). -/
inductive JobStatus where
  | PENDING
  | SUBMITTED
  | RUNNING
  | COMPLETED
  | FAILED
  | CANCELLED
  | TIMEOUT
  deriving DecidableEq, Repr

/-- Terminal states per the spec glossary: COMPLETED, FAILED, CANCELLED, TIMEOUT. -/
def JobStatus.isTerminal : JobStatus → Bool
  | .COMPLETED => true
  | .FAILED => true
  | .CANCELLED => true
  | .TIMEOUT => true
  | _ => false

/-- A dynamically typed Python scalar as stored in exit-code fields:
local jobs store `process.returncode` (an int), the SLURM path stores the
`ExitCode` column of `sacct` (a string such as "0:0"). -/
inductive PyVal where
  | int (n : Int)
  | str (s : String)
  deriving DecidableEq, Repr

/-- Modelled from the spec: the `Job` record of the missing `job.py`
(spec §3: job_id, csv_row_id, job_status, job_exit_code, log_file_path,
updated, failure_notified, writing_queue).  Field defaults mirror
`Job(job_id, None, None, None)` construction in `job_manager.py`. -/
structure Job where
  job_id : Option Int := none
  job_status : Option JobStatus := none
  job_exit_code : Option PyVal := none
  csv_row_id : Option Int := none
  log_file_path : Option String := none
  updated : Bool := false
  failure_notified : Bool := false
  writing_queue : List (String × String) := []
  deriving DecidableEq, Repr

/-- Modelled from the spec: `find_job_idx(jobs, job_id)` of the missing
`job.py`.  From its call sites (`job_manager.process_job_message`,
`job_submission.update_job_statuses_in_place`) it returns the index of
the first job whose `job_id` equals the given backend id, or `None`. -/
def find_job_idx (jobs : List Job) (job_id : Int) : Option Nat :=
  jobs.findIdx? (fun j => j.job_id = some job_id)

/-- Modelled from the spec: `get_slurm_job_status` of the missing
`job.py`, deriving a `JobStatus` from the `State` column returned by the
batched `sacct` query (spec §6: "batched query(ids)→{id:{state,
exit_code}}"; §7: cluster FAILED/TIMEOUT are job-outcome faults).
`sacct` reports cancelled jobs as `CANCELLED` or `CANCELLED by <uid>`;
transitional states are treated as still running. -/
def get_slurm_job_status (state : String) : JobStatus :=
  if state = "COMPLETED" then .COMPLETED
  else if state = "FAILED" then .FAILED
  else if state = "TIMEOUT" then .TIMEOUT
  else if state.startsWith "CANCELLED" then .CANCELLED
  else if state = "PENDING" then .PENDING
  else .RUNNING

/-- One entry of the multiprocessing `shared_jobs_dict`.  Keys that may
be absent are `Option`s (`"status" in job` is `status.isSome`; Python's
`job.get(k, None)` identifies an absent key with an explicit `None`). -/
structure SharedEntry where
  main_pid : Option Int := none
  job_id : Option Int := none
  status : Option JobStatus := none
  exit_code : Option PyVal := none
  log_file_path : Option String := none
  deriving DecidableEq, Repr

/-- One row of the parsed `sacct` output in `get_slurm_jobs_stats`:
`{"State": state, "ExitCode": exit_code}`, both strings. -/
structure SlurmStat where
  state : String
  exitCode : String
  deriving DecidableEq, Repr

/-- Python truthiness of `job.get("log_file_path")`: `None` and the
empty string are falsy. -/
def pyTruthyStr : Option String → Bool
  | none => false
  | some s => s ≠ ""

/-! ## Status Reconciler: `update_job_statuses_in_place` (job_submission.py 70-139)

The `sacct` invocation inside `get_slurm_jobs_stats` is the external
cluster boundary; its already-parsed result (`None` on timeout, else the
id-keyed dict built from the command output) is a parameter `stats`. -/

/-- The per-entry (status, exit code) pair computed by
`update_job_statuses_in_place` (job_submission.py 92-111): for non-local
runs, an id present in the `sacct` result yields the derived status and
the `ExitCode` string; an absent id falls back to the entry's own
`status`/`exit_code` when a `"status"` key exists and to `None`/`None`
otherwise; local runs always read the shared entry. -/
def reconcileComputed (local_run : Bool) (stats : List (Int × SlurmStat)) (ref : Int)
    (e : SharedEntry) : Option JobStatus × Option PyVal :=
  if local_run then (e.status, e.exit_code)
  else
    match stats.lookup ref with
    | some st => (some (get_slurm_job_status st.state), some (.str st.exitCode))
    | none => if e.status.isSome then (e.status, e.exit_code) else (none, none)

/-- Lines 128-131: adopt the row id on first association and a truthy
log-file path from the shared entry. -/
def applyRowInfo (row_id : Int) (e : SharedEntry) (j : Job) : Job :=
  let j := if j.csv_row_id = none then { j with csv_row_id := some row_id } else j
  if pyTruthyStr e.log_file_path then { j with log_file_path := e.log_file_path } else j

/-- Lines 132-136: overwrite status and exit code (marking the job
dirty) whenever either differs from the computed pair. -/
def applyComputed (computed : Option JobStatus × Option PyVal) (j : Job) : Job :=
  if j.job_status ≠ computed.1 ∨ j.job_exit_code ≠ computed.2 then
    { j with job_status := computed.1, job_exit_code := computed.2, updated := true }
  else j

/-- The body of the `for row_id, job in shared_jobs_copy.items()` loop
(job_submission.py 91-138) for one entry: create the registry job on
first sighting, otherwise update it in place.  `none` models the
`KeyError` raised when the reference key (`"main_pid"` locally,
`"job_id"` otherwise) is absent. -/
def updateEntryStep (local_run : Bool) (stats : List (Int × SlurmStat)) (jobs : List Job)
    (row_id : Int) (e : SharedEntry) : Option (List Job) :=
  match (if local_run then e.main_pid else e.job_id) with
  | none => none
  | some ref =>
  let computed := reconcileComputed local_run stats ref e
  match find_job_idx jobs ref with
  | none =>
      some (jobs ++ [{ job_id := some ref, job_status := computed.1,
                       job_exit_code := computed.2, csv_row_id := some row_id,
                       log_file_path := e.log_file_path, updated := true }])
  | some idx =>
      match jobs[idx]? with
      | none => none
      | some j => some (jobs.set idx (applyComputed computed (applyRowInfo row_id e j)))

/-- The whole entry loop of `update_job_statuses_in_place`. -/
def processEntries (local_run : Bool) (stats : List (Int × SlurmStat)) :
    List Job → List (Int × SharedEntry) → Option (List Job)
  | jobs, [] => some jobs
  | jobs, (row_id, e) :: rest => do
      let jobs' ← updateEntryStep local_run stats jobs row_id e
      processEntries local_run stats jobs' rest

/-- `update_job_statuses_in_place(job_manager, shared_jobs_copy, logger,
local_run)` (job_submission.py 70-139).  Returns the mutated registry
list together with the Python return value; the outer `none` models an
uncaught `KeyError` on a malformed shared entry.  `stats` is the
`get_slurm_jobs_stats` result: `none` is the `sacct` timeout (return
`False` without touching the registry, line 81-82), the empty dict
returns `True` immediately (line 84-85). -/
def update_job_statuses_in_place (jobs : List Job) (shared : List (Int × SharedEntry))
    (stats : Option (List (Int × SlurmStat))) (local_run : Bool) :
    Option (List Job × Bool) :=
  -- line 76: job_ids extraction raises KeyError before anything else
  match shared.mapM (fun p => if local_run then p.2.main_pid else p.2.job_id) with
  | none => none
  | some _ =>
    if local_run then
      (processEntries true [] jobs shared).map (fun js => (js, true))
    else
      match stats with
      | none => some (jobs, false)
      | some s =>
          if s = [] then some (jobs, true)
          else (processEntries false s jobs shared).map (fun js => (js, true))

/-! ## Local submission: `update_job_status` and the `submit_job` poll loop
(job_submission.py 142-249) -/

/-- `update_job_status(process, shared_jobs_dict, row_id, lock_manager,
cancelled)` (job_submission.py 142-156): the (status, exit_code) pair
written back into the shared entry for `row_id`. -/
def update_job_status (returncode : Int) (cancelled : Bool) : JobStatus × Int :=
  (if cancelled then .CANCELLED
   else if returncode = 0 then .COMPLETED else .FAILED,
   returncode)

/-- The result of a `submit_job` call as observed by
`pool.apply_async(...).get()`: the string `"Job Stopped"`, an integer
return value, or a raised exception. -/
inductive SubmitResult where
  | code (n : Int)
  | jobStopped
  deriving DecidableEq, Repr

/-- The local-process poll loop of `submit_job` (job_submission.py
217-249).  `flags` holds the successive values of `run_jobs_flag`
observed at line 220 while `process.poll()` is still `None`; once they
are exhausted the process has exited with `exitRc`.  `killedRc` is the
`returncode` the process shows after the SIGINT/terminate sequence.
Returns the `(status, exit_code)` pair written by `update_job_status`
together with the function's return value. -/
def submitLocalLoop (flags : List Bool) (killedRc exitRc : Int) :
    (JobStatus × Int) × SubmitResult :=
  match flags with
  | [] => (update_job_status exitRc false, .code exitRc)
  | f :: rest =>
      if f then submitLocalLoop rest killedRc exitRc
      else (update_job_status killedRc true, .code 1)

/-- The forcing step of the cancellation path (job_monitor.py 480-489):
every registry job still RUNNING or PENDING is set to CANCELLED and
marked dirty. -/
def forceCancelJobs (jobs : List Job) : List Job :=
  jobs.map (fun j =>
    if j.job_status = some .RUNNING ∨ j.job_status = some .PENDING then
      { j with job_status := some .CANCELLED, updated := true }
    else j)

/-! ## Monitor loop state machine (job_monitor.py 68-356) -/

/-- The closure state mutated by `signal_handler` (job_monitor.py
105-127) together with the process-wide `run_jobs_flag`
(job_submission.py 23). -/
structure MonitorFlags where
  should_exit : Bool := false
  signal_received : Bool := false
  is_cancelling : Bool := false
  run_jobs_flag : Int := 1
  deriving DecidableEq, Repr

/-- `signal_handler(sig, frame)` (job_monitor.py 116-127): the new state
and the `logger.log` lines it emits. -/
def signal_handler (s : MonitorFlags) : MonitorFlags × List String :=
  if s.is_cancelling then
    (s, ["Cancellation in progress, please wait..."])
  else if ¬ s.signal_received then
    ({ s with signal_received := true, run_jobs_flag := 0, should_exit := true },
     ["Received exit signal. Preparing to terminate all jobs..."])
  else
    (s, [])

/-- The submission loop of one monitor tick (job_monitor.py 285-291):
`while pending_jobs and (max_conc_jobs == -1 or current_jobs <
max_conc_jobs)`, pop the head index, dispatch it (append to
`active_submissions`), and increment `current_jobs`.  Returns the new
`current_jobs`, the remaining `pending_jobs` and the dispatch order. -/
def dispatchLoop (max_conc_jobs : Int) : Int → List Nat → List Nat →
    Int × List Nat × List Nat
  | current_jobs, [], active => (current_jobs, [], active)
  | current_jobs, job_idx :: rest, active =>
      if max_conc_jobs = -1 ∨ current_jobs < max_conc_jobs then
        dispatchLoop max_conc_jobs (current_jobs + 1) rest (active ++ [job_idx])
      else
        (current_jobs, job_idx :: rest, active)

/-- State of one `active_submissions` entry as seen by
`async_result.ready()` / `.get()`: still in flight, finished with a
result, or finished by raising. -/
inductive Submission where
  | inFlight
  | done (r : SubmitResult)
  | raised
  deriving DecidableEq, Repr

/-- Python's `result != 0` on a `submit_job` return value: any non-zero
int, and also the string `"Job Stopped"`. -/
def submitResultNonZero : SubmitResult → Bool
  | .code n => n ≠ 0
  | .jobStopped => true

/-- The completed-submission sweep of one tick (job_monitor.py 293-312):
for every ready entry, a non-zero result or an exception decrements
`current_jobs` and appends the index at the back of `pending_jobs`;
every ready entry is removed from `active_submissions`. -/
def checkCompleted (current_jobs : Int) (pending : List Nat)
    (active : List (Nat × Submission)) : Int × List Nat × List (Nat × Submission) :=
  let swept := active.foldl
    (fun (st : Int × List Nat) (entry : Nat × Submission) =>
      match entry.2 with
      | .inFlight => st
      | .done r => if submitResultNonZero r then (st.1 - 1, st.2 ++ [entry.1]) else st
      | .raised => (st.1 - 1, st.2 ++ [entry.1]))
    (current_jobs, pending)
  (swept.1, swept.2, active.filter (fun entry => entry.2 = Submission.inFlight))

/-- One submit-then-fail round for a single job index: the tick
dispatches the head of `pending` (capacity permitting) and the
submission later completes with the given result, which the next sweep
processes.  Used to iterate an always-failing submission. -/
def failingSubmissionTick (max_conc_jobs : Int) (r : SubmitResult)
    (st : Int × List Nat) : Int × List Nat :=
  let d := dispatchLoop max_conc_jobs st.1 st.2 []
  let c := checkCompleted d.1 d.2.1 (d.2.2.map (fun i => (i, Submission.done r)))
  (c.1, c.2.1)

/-! ## Lock discipline of the reconciler call site (job_monitor.py
314-323, job_submission.py 41-82) -/

/-- Events relevant to the Registry-lock discipline. -/
inductive LockEvent where
  | acquireRegistryLock
  | releaseRegistryLock
  | blockingCall (cmd : String)
  | applyToRegistry
  deriving DecidableEq, Repr

/-- The events performed by `update_job_statuses_in_place` itself
(job_submission.py 70-139): for a non-local run it first executes the
blocking `sacct` query via `get_slurm_jobs_stats` (subprocess.run with a
180 s timeout, lines 41-67, called at line 80) and then applies the
result to the registry; a local run only applies. -/
def reconcilerEvents (local_run : Bool) : List LockEvent :=
  if local_run then [.applyToRegistry]
  else [.blockingCall "sacct", .applyToRegistry]

/-- The reconciler call site in the monitor tick (job_monitor.py
316-319): `with job_manager.manager_lock:` around the whole
`update_job_statuses_in_place` call. -/
def monitorReconcileEvents (local_run : Bool) : List LockEvent :=
  [.acquireRegistryLock] ++ reconcilerEvents local_run ++ [.releaseRegistryLock]

/-- Whether some blocking call happens while the Registry lock is held. -/
def blockingCallUnderLock (events : List LockEvent) : Bool :=
  (events.foldl
    (fun (st : Bool × Bool) e =>
      match e with
      | .acquireRegistryLock => (st.1, true)
      | .releaseRegistryLock => (st.1, false)
      | .blockingCall _ => (st.1 || st.2, st.2)
      | .applyToRegistry => st)
    (false, false)).1

/-! ## Message Protocol (utility/message_client.py 76-114, job_manager.py 73-203)

The body of a packet is the Python `json.dumps({"job_id": self.job_id,
"messages": all_messages}).encode("utf-8")` with `all_messages` a list of
`{"type": t, "key": str(k), "value": str(v)}` dicts, and the packet is
`message_length.to_bytes(4, "big") + message_str`.  The `json` module is
the standard library, not repository code, so its serialization is
modelled from the spec's wire format ("UTF-8 JSON body"): default
`json.dumps` settings (`ensure_ascii=True`, separators `", "` / `": "`,
insertion-ordered keys), under which the body is pure ASCII — every
non-ASCII character appears as a `\uXXXX` escape (a surrogate pair
beyond the basic plane) and each body character is one UTF-8 byte. -/

/-- Lower-case hexadecimal digit, as emitted by `json.dumps`. -/
def hexDigitChar (k : Nat) : Char :=
  Char.ofNat (if k < 10 then 48 + k else 87 + k)

/-- Four-digit hexadecimal rendering used in `\uXXXX` escapes. -/
def hex4 (n : Nat) : List Char :=
  [hexDigitChar (n / 4096 % 16), hexDigitChar (n / 256 % 16),
   hexDigitChar (n / 16 % 16), hexDigitChar (n % 16)]

/-- JSON rendering of one character of a string, `ensure_ascii` style:
quote and backslash are escaped, every character outside printable ASCII
becomes `\uXXXX` (two escapes forming a surrogate pair above U+FFFF),
and printable ASCII passes through. -/
def escapeChar (c : Char) : List Char :=
  if c = '"' then ['\\', '"']
  else if c = '\\' then ['\\', '\\']
  else if c.toNat < 32 ∨ 126 < c.toNat then
    if c.toNat < 65536 then '\\' :: 'u' :: hex4 c.toNat
    else
      ('\\' :: 'u' :: hex4 (55296 + (c.toNat - 65536) / 1024)) ++
      ('\\' :: 'u' :: hex4 (56320 + (c.toNat - 65536) % 1024))
  else [c]

/-- JSON string literal for `s`. -/
def encodeJString (s : String) : List Char :=
  '"' :: ((s.data.map escapeChar).flatten ++ ['"'])

/-- Decimal digit character. -/
def decDigit (d : Nat) : Char := Char.ofNat (48 + d)

/-- Decimal digits of `n`, most significant first (fuelled so that it
reduces definitionally; `natToChars` supplies sufficient fuel). -/
def natToCharsAux : Nat → Nat → List Char
  | 0, _ => []
  | fuel + 1, n =>
      if n < 10 then [decDigit n]
      else natToCharsAux fuel (n / 10) ++ [decDigit (n % 10)]

/-- Decimal rendering of a natural number. -/
def natToChars (n : Nat) : List Char := natToCharsAux (n + 1) n

/-- JSON (Python `repr`) rendering of an integer. -/
def intToChars (z : Int) : List Char :=
  if z < 0 then '-' :: natToChars z.natAbs else natToChars z.toNat

/-- Items joined by the default `json.dumps` item separator `", "`. -/
def joinCommaSep : List (List Char) → List Char
  | [] => []
  | [x] => x
  | x :: y :: xs => x ++ ", ".data ++ joinCommaSep (y :: xs)

/-- JSON object for one queued message, exactly as `json.dumps` renders
`{"type": t, "key": k, "value": v}` (message_client.py 84-89). -/
def encodeMsgObj (m : Int × String × String) : List Char :=
  "\x7b\"type\": ".data ++ intToChars m.1 ++
  ", \"key\": ".data ++ encodeJString m.2.1 ++
  ", \"value\": ".data ++ encodeJString m.2.2 ++ ['\x7d']

/-- JSON body for the whole envelope `{"job_id": jid, "messages":
[...]}` (message_client.py 91-93). -/
def encodeBody (jid : Int) (msgs : List (Int × String × String)) : List Char :=
  "\x7b\"job_id\": ".data ++ intToChars jid ++
  ", \"messages\": [".data ++
  joinCommaSep (msgs.map encodeMsgObj) ++
  (']' :: ['\x7d'])

/-- ASCII characters to raw bytes (`.encode("utf-8")` on an
`ensure_ascii` JSON text is one byte per character). -/
def charsToBytes (cs : List Char) : List Nat := cs.map Char.toNat

/-- `message_length.to_bytes(4, "big")` (message_client.py 103);
`int.to_bytes` raises `OverflowError` for a length at or above `2^32`,
modelled by `none` in `clientPacket`. -/
def lenToBytes4BE (n : Nat) : List Nat :=
  [n / 16777216 % 256, n / 65536 % 256, n / 256 % 256, n % 256]

/-- `int.from_bytes(length_data, "big")` (job_manager.py 152). -/
def beBytesToNat (bs : List Nat) : Nat := bs.foldl (fun a b => a * 256 + b) 0

/-- The packet assembled by `MessageClient.sync_with_remote`
(message_client.py 91-106): length prefix plus UTF-8 JSON body. -/
def clientPacket (jid : Int) (msgs : List (Int × String × String)) :
    Option (List Nat) :=
  let body := charsToBytes (encodeBody jid msgs)
  if body.length < 4294967296 then some (lenToBytes4BE body.length ++ body) else none

/-! ### The manager-side decoder.

`json.loads` (job_manager.py 177) is standard-library code; it is
modelled from the spec's wire format as a parser of the exact grammar
`{"job_id": int, "messages": [{"type": int, "key": str, "value": str},
...]}` produced above, including `\uXXXX` escapes and surrogate pairs. -/

/-- Value of one hexadecimal digit (`json.loads` accepts both cases). -/
def hexVal (c : Char) : Option Nat :=
  if '0' ≤ c ∧ c ≤ '9' then some (c.toNat - 48)
  else if 'a' ≤ c ∧ c ≤ 'f' then some (c.toNat - 87)
  else if 'A' ≤ c ∧ c ≤ 'F' then some (c.toNat - 55)
  else none

/-- Value of a four-digit hexadecimal escape payload. -/
def hex4Val (a b c d : Char) : Option Nat :=
  match hexVal a, hexVal b, hexVal c, hexVal d with
  | some ha, some hb, some hc, some hd => some (((ha * 16 + hb) * 16 + hc) * 16 + hd)
  | _, _, _, _ => none

/-- The low-surrogate half of an escaped surrogate pair: expects
`\uXXXX` with a low surrogate and combines it with the high half `m`. -/
def parseSurrogateTail (m : Nat) : List Char → Option (Char × List Char)
  | e2 :: u2 :: a2 :: b2 :: c2 :: d2 :: cs3 =>
    if e2 = '\\' then
      if u2 = 'u' then
        match hex4Val a2 b2 c2 d2 with
        | none => none
        | some m2 =>
          if 56320 ≤ m2 ∧ m2 < 57344 then
            some (Char.ofNat (65536 + (m - 55296) * 1024 + (m2 - 56320)), cs3)
          else none
      else none
    else none
  | _ => none

/-- A `\uXXXX` escape payload: a basic-plane scalar directly, or a
high surrogate followed by its low half. -/
def parseUEscape : List Char → Option (Char × List Char)
  | a :: b :: c :: d :: cs2 =>
    (match hex4Val a b c d with
     | none => none
     | some m =>
        if 55296 ≤ m ∧ m < 56320 then parseSurrogateTail m cs2
        else if 56320 ≤ m ∧ m < 57344 then none
        else some (Char.ofNat m, cs2))
  | _ => none

/-- Decode one escape sequence (the input starts right after a
backslash): the two-character escapes, a basic-plane `\uXXXX`, or a
surrogate pair for an astral character.  Exactly the escapes the encoder
emits; a lone or wrongly-ordered surrogate escape is rejected. -/
def parseEscapeSeq : List Char → Option (Char × List Char)
  | [] => none
  | e :: cs1 =>
    if e = '"' then some ('"', cs1)
    else if e = '\\' then some ('\\', cs1)
    else if e = 'u' then parseUEscape cs1
    else none

/-- Characters of a JSON string body up to its closing quote, fuelled
(one unit per decoded character; `parseJString` supplies the input
length, which always suffices). -/
def parseJStrBodyF : Nat → List Char → Option (List Char × List Char)
  | 0, _ => none
  | _ + 1, [] => none
  | fuel + 1, c :: cs =>
    if c = '"' then some ([], cs)
    else if c = '\\' then
      match parseEscapeSeq cs with
      | none => none
      | some (u, cs1) => (parseJStrBodyF fuel cs1).map (fun p => (u :: p.1, p.2))
    else (parseJStrBodyF fuel cs).map (fun p => (c :: p.1, p.2))

/-- A JSON string literal. -/
def parseJString (cs : List Char) : Option (String × List Char) :=
  match cs with
  | [] => none
  | c :: rest =>
      if c = '"' then (parseJStrBodyF rest.length rest).map (fun p => (String.mk p.1, p.2))
      else none

/-- Maximal run of decimal digits, accumulated left to right. -/
def parseNatAux (acc : Nat) : List Char → Nat × List Char
  | [] => (acc, [])
  | c :: cs =>
      if c.isDigit then parseNatAux (acc * 10 + (c.toNat - 48)) cs
      else (acc, c :: cs)

/-- A JSON integer (optional minus sign, then digits). -/
def parseInt : List Char → Option (Int × List Char)
  | [] => none
  | c :: cs =>
    if c = '-' then
      match cs with
      | [] => none
      | d :: ds =>
          if d.isDigit then
            let p := parseNatAux 0 (d :: ds)
            some (-(p.1 : Int), p.2)
          else none
    else if c.isDigit then
      let p := parseNatAux 0 (c :: cs)
      some ((p.1 : Int), p.2)
    else none

/-- Consume an expected literal sequence of characters. -/
def dropLiteral : List Char → List Char → Option (List Char)
  | [], cs => some cs
  | _ :: _, [] => none
  | l :: ls, c :: cs => if c = l then dropLiteral ls cs else none

/-- One `{"type": ..., "key": ..., "value": ...}` object. -/
def parseMsgObj (cs : List Char) : Option ((Int × String × String) × List Char) := do
  let cs ← dropLiteral "\x7b\"type\": ".data cs
  let (t, cs) ← parseInt cs
  let cs ← dropLiteral ", \"key\": ".data cs
  let (k, cs) ← parseJString cs
  let cs ← dropLiteral ", \"value\": ".data cs
  let (v, cs) ← parseJString cs
  let cs ← dropLiteral ['\x7d'] cs
  some ((t, k, v), cs)

/-- A non-empty comma-separated message list followed by the closing
`]}`; the fuel is an upper bound on the number of objects. -/
def parseMsgsAux : Nat → List Char → Option (List (Int × String × String) × List Char)
  | 0, _ => none
  | fuel + 1, cs => do
      let (m, cs1) ← parseMsgObj cs
      match cs1 with
      | [] => none
      | c1 :: cs2 =>
        if c1 = ',' then
          match cs2 with
          | [] => none
          | c2 :: cs3 =>
              if c2 = ' ' then do
                let (ms, cs4) ← parseMsgsAux fuel cs3
                some (m :: ms, cs4)
              else none
        else if c1 = ']' then do
          let cs3 ← dropLiteral ['\x7d'] cs2
          some ([m], cs3)
        else none

/-- The whole body: `json.loads` restricted to the envelope grammar,
followed by the `job_id`/`messages` presence assertions of
`handle_client` (job_manager.py 189-190).  Rejects trailing garbage as
`json.loads` does. -/
def parseBody (cs : List Char) : Option (Int × List (Int × String × String)) := do
  let cs ← dropLiteral "\x7b\"job_id\": ".data cs
  let (jid, cs) ← parseInt cs
  let cs ← dropLiteral ", \"messages\": [".data cs
  match cs with
  | [] => none
  | c :: cs1 =>
    if c = ']' then do
      let cs2 ← dropLiteral ['\x7d'] cs1
      if cs2 = [] then some (jid, []) else none
    else do
      let (ms, cs2) ← parseMsgsAux (c :: cs1).length (c :: cs1)
      if cs2 = [] then some (jid, ms) else none

/-- `data.decode("utf-8")` on an all-ASCII body followed by the JSON
parse; a byte outside ASCII is rejected (the encoder never emits one). -/
def decodeBody (bs : List Nat) : Option (Int × List (Int × String × String)) := do
  let cs ← bs.mapM (fun b => if b < 128 then some (Char.ofNat b) else none)
  parseBody cs

/-! ### The manager-side socket reader (job_manager.py 73-203). -/

/-- Outcome of one `client.recv` call inside `_recv_exact`: an idle
timeout (`socket.timeout`), or a chunk of bytes — the empty chunk is the
peer closing the connection.  A chunk larger than the amount still
needed stays buffered for the next read, as on a real socket. -/
inductive RecvEvent where
  | timeout
  | chunk (bs : List Nat)
  deriving DecidableEq, Repr

/-- The accumulation loop of `_recv_exact` (job_manager.py 73-106):
retry on timeout, return `none` when the peer closes early, otherwise
collect exactly `expected` bytes.  When the events run out with bytes
still missing the read never completes; this is also `none`.  Returns
the result together with the unconsumed events. -/
def recvExactAux (expected : Nat) (acc : List Nat) :
    List RecvEvent → Option (List Nat) × List RecvEvent
  | [] => if expected ≤ acc.length then (some acc, []) else (none, [])
  | e :: rest =>
    if expected ≤ acc.length then (some acc, e :: rest)
    else
      match e with
      | .timeout => recvExactAux expected acc rest
      | .chunk [] => (none, rest)
      | .chunk bs =>
          if bs.length ≤ expected - acc.length then
            recvExactAux expected (acc ++ bs) rest
          else
            (some (acc ++ bs.take (expected - acc.length)),
             .chunk (bs.drop (expected - acc.length)) :: rest)

/-- `self._recv_exact(client, expected_len)` (job_manager.py 73-106). -/
def recv_exact (expected : Nat) (events : List RecvEvent) :
    Option (List Nat) × List RecvEvent :=
  recvExactAux expected [] events

/-- Result of one iteration of the `handle_client` loop. -/
inductive IterResult where
  | closed
  | incomplete
  | badMessage
  | applied (jid : Int) (msgs : List (Int × String × String))
  deriving DecidableEq, Repr

/-- One iteration of the per-connection loop (job_manager.py 143-203):
read the 4-byte length header, read the body, check completeness,
deserialize, and only then apply the message.  Every failing branch
`break`s out of the loop. -/
def handleIteration (events : List RecvEvent) : IterResult × List RecvEvent :=
  match recv_exact 4 events with
  | (none, rest) => (.closed, rest)
  | (some len4, rest) =>
    let n := beBytesToNat len4
    match recv_exact n rest with
    | (none, rest1) => (.incomplete, rest1)
    | (some data, rest1) =>
        if data.length < n then (.incomplete, rest1)
        else
          match decodeBody data with
          | none => (.badMessage, rest1)
          | some (jid, msgs) => (.applied jid msgs, rest1)

/-- Modelled from the spec: `Job.process_message` of the missing
`job.py`.  Spec §4.1/§4.2: the receiver merges each `(key, value)` pair
idempotently, last write wins per key, into the job's pending
`writing_queue`. -/
def process_message (j : Job) (msgs : List (Int × String × String)) : Job :=
  msgs.foldl
    (fun j m =>
      { j with writing_queue :=
          (j.writing_queue.filter (fun q => q.1 ≠ m.2.1)) ++ [(m.2.1, m.2.2)] })
    j

/-- `JobManager.process_job_message` (job_manager.py 108-134): find the
job by id, creating it on first sighting, and apply the message under
the Registry lock. -/
def process_job_message (jobs : List Job) (jid : Int)
    (msgs : List (Int × String × String)) : List Job :=
  match find_job_idx jobs jid with
  | some idx =>
      match jobs[idx]? with
      | some j => jobs.set idx (process_message j msgs)
      | none => jobs
  | none => jobs ++ [process_message { job_id := some jid } msgs]

/-- The Registry after one `handle_client` iteration:
`process_job_message` runs only when a complete, well-formed message was
read. -/
def clientStepRegistry (jobs : List Job) (events : List RecvEvent) : List Job :=
  match (handleIteration events).1 with
  | .applied jid msgs => process_job_message jobs jid msgs
  | _ => jobs

/-- Whether every registry apply happens while the Registry lock is held. -/
def appliesUnderLock (events : List LockEvent) : Bool :=
  (events.foldl
    (fun (st : Bool × Bool) e =>
      match e with
      | .acquireRegistryLock => (st.1, true)
      | .releaseRegistryLock => (st.1, false)
      | .blockingCall _ => st
      | .applyToRegistry => (st.1 && st.2, st.2))
    (true, false)).1

/-! ## Helper lemmas -/

theorem applyRowInfo_status (rid : Int) (e : SharedEntry) (j : Job) :
    (applyRowInfo rid e j).job_status = j.job_status
    ∧ (applyRowInfo rid e j).job_exit_code = j.job_exit_code := by
  unfold applyRowInfo
  split <;> split <;> simp

theorem applyComputed_status (c : Option JobStatus × Option PyVal) (j : Job) :
    (applyComputed c j).job_status = c.1 ∧ (applyComputed c j).job_exit_code = c.2 := by
  unfold applyComputed
  by_cases hs : j.job_status ≠ c.1 ∨ j.job_exit_code ≠ c.2
  · rw [if_pos hs]; exact ⟨rfl, rfl⟩
  · push_neg at hs
    rw [if_neg (by push_neg; exact hs)]
    exact ⟨hs.1, hs.2⟩

theorem updateEntryStep_found (local_run : Bool) (stats : List (Int × SlurmStat))
    (jobs : List Job) (rid ref : Int) (e : SharedEntry) (i : Nat) (j : Job)
    (href : (if local_run then e.main_pid else e.job_id) = some ref)
    (hfind : find_job_idx jobs ref = some i) (hget : jobs[i]? = some j) :
    ∃ j', updateEntryStep local_run stats jobs rid e = some (jobs.set i j')
      ∧ j'.job_status = (reconcileComputed local_run stats ref e).1
      ∧ j'.job_exit_code = (reconcileComputed local_run stats ref e).2 := by
  refine ⟨applyComputed (reconcileComputed local_run stats ref e) (applyRowInfo rid e j),
    ?_, ?_, ?_⟩
  · unfold updateEntryStep
    rw [href]
    dsimp only
    rw [hfind]
    dsimp only
    rw [hget]
  · exact (applyComputed_status _ _).1
  · exact (applyComputed_status _ _).2

theorem processEntries_singleton (local_run : Bool) (stats : List (Int × SlurmStat))
    (jobs jobs' : List Job) (rid : Int) (e : SharedEntry)
    (h : updateEntryStep local_run stats jobs rid e = some jobs') :
    processEntries local_run stats jobs [(rid, e)] = some jobs' := by
  simp [processEntries, h]

theorem getElem?_of_set_self {l : List Job} {i : Nat} {j j' : Job}
    (h : l[i]? = some j) : (l.set i j')[i]? = some j' :=
  List.getElem?_set_self (List.getElem?_eq_some.mp h).1

theorem reconcileComputed_absent_status (stats : List (Int × SlurmStat)) (ref : Int)
    (e : SharedEntry) (h : stats.lookup ref = none) :
    (reconcileComputed false stats ref e).1 = e.status := by
  unfold reconcileComputed
  rw [h]
  cases e.status <;> simp

theorem dispatchLoop_ceiling (pending : List Nat) :
    ∀ (maxC cur : Int) (active : List Nat), 0 ≤ maxC → cur ≤ maxC →
      (dispatchLoop maxC cur pending active).1 ≤ maxC := by
  induction pending with
  | nil => intro maxC cur active _ hcur; simpa [dispatchLoop] using hcur
  | cons j rest ih =>
      intro maxC cur active hmax hcur
      unfold dispatchLoop
      by_cases hcond : maxC = -1 ∨ cur < maxC
      · rw [if_pos hcond]
        rcases hcond with h1 | h2
        · omega
        · exact ih maxC (cur + 1) (active ++ [j]) hmax (by omega)
      · rw [if_neg hcond]
        exact hcur

theorem dispatchLoop_unlimited (pending : List Nat) :
    ∀ (cur : Int) (active : List Nat),
      dispatchLoop (-1) cur pending active
        = (cur + pending.length, [], active ++ pending) := by
  induction pending with
  | nil => intro cur active; simp [dispatchLoop]
  | cons j rest ih =>
      intro cur active
      unfold dispatchLoop
      rw [if_pos (Or.inl rfl), ih]
      have h1 : cur + 1 + (rest.length : Int) = cur + ((rest.length : Int) + 1) := by ring
      simp [h1]

theorem checkCompleted_single_done (cur : Int) (pending : List Nat) (i : Nat)
    (r : SubmitResult) (h : submitResultNonZero r = true) :
    checkCompleted cur pending [(i, Submission.done r)] = (cur - 1, pending ++ [i], []) := by
  simp [checkCompleted, h]

theorem submitLocalLoop_all_true (flags : List Bool) (killedRc exitRc : Int)
    (h : ∀ f ∈ flags, f = true) :
    submitLocalLoop flags killedRc exitRc
      = ((if exitRc = 0 then JobStatus.COMPLETED else JobStatus.FAILED, exitRc),
         SubmitResult.code exitRc) := by
  induction flags with
  | nil => simp [submitLocalLoop, update_job_status]
  | cons f rest ih =>
      have hf : f = true := h f (by simp)
      subst hf
      simpa [submitLocalLoop] using ih (fun g hg => h g (by simp [hg]))

theorem submitLocalLoop_killed (flags : List Bool) (killedRc exitRc : Int)
    (h : false ∈ flags) :
    submitLocalLoop flags killedRc exitRc
      = ((JobStatus.CANCELLED, killedRc), SubmitResult.code 1) := by
  induction flags with
  | nil => simp at h
  | cons f rest ih =>
      cases f with
      | false => simp [submitLocalLoop, update_job_status]
      | true =>
          have : false ∈ rest := by simpa using h
          simpa [submitLocalLoop] using ih this

/-- The initial closure state of `monitor_jobs_async` (job_monitor.py
105-108): not exiting, no signal seen, not cancelling, run flag 1. -/
def initFlags : MonitorFlags := {}

/-! ### Round-trip lemmas for the wire format -/

theorem hexVal_hexDigitChar (k : Nat) (h : k < 16) : hexVal (hexDigitChar k) = some k := by
  interval_cases k <;> decide

theorem decDigit_isDigit (k : Nat) (h : k < 10) : (decDigit k).isDigit = true := by
  interval_cases k <;> decide

theorem decDigit_toNat (k : Nat) (h : k < 10) : (decDigit k).toNat = 48 + k := by
  interval_cases k <;> decide

theorem decDigit_ne_dash (k : Nat) (h : k < 10) : decDigit k ≠ '-' := by
  interval_cases k <;> decide

theorem char_valid_facts (c : Char) :
    c.toNat < 1114112 ∧ ¬(55296 ≤ c.toNat ∧ c.toNat < 57344) := by
  have h := c.valid
  unfold UInt32.isValidChar Nat.isValidChar at h
  have he : c.toNat = c.val.toNat := rfl
  rcases h with h | h <;> omega

theorem hex4Val_hex4 (m : Nat) (h : m < 65536) :
    hex4Val (hexDigitChar (m / 4096 % 16)) (hexDigitChar (m / 256 % 16))
      (hexDigitChar (m / 16 % 16)) (hexDigitChar (m % 16)) = some m := by
  unfold hex4Val
  rw [hexVal_hexDigitChar _ (Nat.mod_lt _ (by norm_num)),
    hexVal_hexDigitChar _ (Nat.mod_lt _ (by norm_num)),
    hexVal_hexDigitChar _ (Nat.mod_lt _ (by norm_num)),
    hexVal_hexDigitChar _ (Nat.mod_lt _ (by norm_num))]
  dsimp only
  congr 1
  omega

theorem parseEscapeSeq_quote (r : List Char) : parseEscapeSeq ('"' :: r) = some ('"', r) := by
  unfold parseEscapeSeq
  dsimp only
  rw [if_pos rfl]

theorem parseEscapeSeq_backslash (r : List Char) :
    parseEscapeSeq ('\\' :: r) = some ('\\', r) := by
  unfold parseEscapeSeq
  dsimp only
  rw [if_neg (by decide : ¬('\\' : Char) = '"'), if_pos (rfl : ('\\' : Char) = '\\')]

theorem parseEscapeSeq_uhead (cs : List Char) :
    parseEscapeSeq ('u' :: cs) = parseUEscape cs := by
  unfold parseEscapeSeq
  dsimp only
  rw [if_neg (by decide : ¬('u' : Char) = '"'), if_neg (by decide : ¬('u' : Char) = '\\'),
    if_pos (rfl : ('u' : Char) = 'u')]

theorem parseUEscape_hex4 (m : Nat) (r : List Char) (hm : m < 65536) :
    parseUEscape (hex4 m ++ r)
      = (if 55296 ≤ m ∧ m < 56320 then parseSurrogateTail m r
         else if 56320 ≤ m ∧ m < 57344 then none
         else some (Char.ofNat m, r)) := by
  unfold parseUEscape
  simp only [hex4, List.cons_append, List.nil_append]
  rw [hex4Val_hex4 m hm]

theorem parseEscapeSeq_u (m : Nat) (r : List Char) (hm : m < 65536)
    (hs : ¬(55296 ≤ m ∧ m < 57344)) :
    parseEscapeSeq ('u' :: (hex4 m ++ r)) = some (Char.ofNat m, r) := by
  rw [parseEscapeSeq_uhead, parseUEscape_hex4 m r hm]
  rw [if_neg (by omega : ¬(55296 ≤ m ∧ m < 56320)),
    if_neg (by omega : ¬(56320 ≤ m ∧ m < 57344))]

theorem parseSurrogateTail_ok (m lo : Nat) (r : List Char) (hlo1 : 56320 ≤ lo)
    (hlo2 : lo < 57344) :
    parseSurrogateTail m ('\\' :: 'u' :: (hex4 lo ++ r))
      = some (Char.ofNat (65536 + (m - 55296) * 1024 + (lo - 56320)), r) := by
  unfold parseSurrogateTail
  simp only [hex4, List.cons_append, List.nil_append]
  rw [if_pos trivial, if_pos trivial]
  rw [hex4Val_hex4 lo (by omega)]
  dsimp only
  rw [if_pos ⟨hlo1, hlo2⟩]

theorem parseEscapeSeq_surrogate (n : Nat) (r : List Char) (hn : 65536 ≤ n)
    (hv : n < 1114112) :
    parseEscapeSeq ('u' :: (hex4 (55296 + (n - 65536) / 1024)
        ++ ('\\' :: 'u' :: (hex4 (56320 + (n - 65536) % 1024) ++ r))))
      = some (Char.ofNat n, r) := by
  have hd : (n - 65536) / 1024 < 1024 := by omega
  have he : (n - 65536) % 1024 < 1024 := Nat.mod_lt _ (by norm_num)
  set hi := 55296 + (n - 65536) / 1024 with hhi
  set lo := 56320 + (n - 65536) % 1024 with hlo
  rw [parseEscapeSeq_uhead, parseUEscape_hex4 hi _ (by omega)]
  rw [if_pos (by omega : 55296 ≤ hi ∧ hi < 56320)]
  rw [parseSurrogateTail_ok hi lo r (by omega) (by omega)]
  have harg : 65536 + (hi - 55296) * 1024 + (lo - 56320) = n := by omega
  rw [harg]

theorem parseJStrBodyF_cons_quote (fuel : Nat) (cs : List Char) :
    parseJStrBodyF (fuel + 1) ('"' :: cs) = some ([], cs) := by
  conv_lhs => rw [parseJStrBodyF]
  rw [if_pos rfl]

theorem parseJStrBodyF_cons_esc (fuel : Nat) (cs : List Char) :
    parseJStrBodyF (fuel + 1) ('\\' :: cs)
      = match parseEscapeSeq cs with
        | none => none
        | some (u, cs1) => (parseJStrBodyF fuel cs1).map (fun p => (u :: p.1, p.2)) := by
  conv_lhs => rw [parseJStrBodyF]
  rw [if_neg (by decide : ¬('\\' : Char) = '"'), if_pos (rfl : ('\\' : Char) = '\\')]

theorem parseJStrBodyF_cons_plain (fuel : Nat) (c : Char) (cs : List Char)
    (h1 : c ≠ '"') (h2 : c ≠ '\\') :
    parseJStrBodyF (fuel + 1) (c :: cs)
      = (parseJStrBodyF fuel cs).map (fun p => (c :: p.1, p.2)) := by
  conv_lhs => rw [parseJStrBodyF]
  rw [if_neg h1, if_neg h2]

theorem parseJStrBodyF_escapeChar (c : Char) (fuel : Nat) (r : List Char) :
    parseJStrBodyF (fuel + 1) (escapeChar c ++ r)
      = (parseJStrBodyF fuel r).map (fun p => (c :: p.1, p.2)) := by
  have hvalid := char_valid_facts c
  unfold escapeChar
  by_cases hq : c = '"'
  · subst hq
    rw [if_pos rfl]
    rw [show (['\\', '"'] ++ r) = '\\' :: '"' :: r from rfl]
    rw [parseJStrBodyF_cons_esc]
    rfl
  · rw [if_neg hq]
    by_cases hb : c = '\\'
    · subst hb
      rw [if_pos rfl]
      rw [show (['\\', '\\'] ++ r) = '\\' :: '\\' :: r from rfl]
      rw [parseJStrBodyF_cons_esc]
      rfl
    · rw [if_neg hb]
      by_cases hout : c.toNat < 32 ∨ 126 < c.toNat
      · rw [if_pos hout]
        by_cases hbmp : c.toNat < 65536
        · rw [if_pos hbmp]
          rw [show (('\\' :: 'u' :: hex4 c.toNat) ++ r) = '\\' :: 'u' :: (hex4 c.toNat ++ r)
            from by simp]
          rw [parseJStrBodyF_cons_esc]
          rw [parseEscapeSeq_u c.toNat r hbmp hvalid.2]
          rw [Char.ofNat_toNat]
        · rw [if_neg hbmp]
          rw [show ((('\\' :: 'u' :: hex4 (55296 + (c.toNat - 65536) / 1024)) ++
                ('\\' :: 'u' :: hex4 (56320 + (c.toNat - 65536) % 1024))) ++ r)
              = '\\' :: 'u' :: (hex4 (55296 + (c.toNat - 65536) / 1024)
                ++ ('\\' :: 'u' :: (hex4 (56320 + (c.toNat - 65536) % 1024) ++ r)))
            from by simp]
          rw [parseJStrBodyF_cons_esc]
          rw [parseEscapeSeq_surrogate c.toNat r (by omega) hvalid.1]
          rw [Char.ofNat_toNat]
      · rw [if_neg hout]
        rw [show (([c] : List Char) ++ r) = c :: r from rfl]
        exact parseJStrBodyF_cons_plain fuel c r hq hb

theorem escapeChar_ne_nil (c : Char) : escapeChar c ≠ [] := by
  unfold escapeChar
  split_ifs <;> simp

theorem length_le_flatten_escape (cs : List Char) :
    cs.length ≤ ((cs.map escapeChar).flatten).length := by
  induction cs with
  | nil => simp
  | cons c cs ih =>
      simp only [List.map_cons, List.flatten_cons, List.length_cons, List.length_append]
      have h1 : 1 ≤ (escapeChar c).length :=
        List.length_pos.mpr (escapeChar_ne_nil c)
      omega

theorem parseJStrBodyF_encode (cs : List Char) :
    ∀ (fuel : Nat) (r : List Char), cs.length < fuel →
      parseJStrBodyF fuel ((cs.map escapeChar).flatten ++ '"' :: r) = some (cs, r) := by
  induction cs with
  | nil =>
      intro fuel r hf
      match fuel, hf with
      | fuel + 1, _ =>
          simp only [List.map_nil, List.flatten_nil, List.nil_append]
          exact parseJStrBodyF_cons_quote fuel r
  | cons c cs ih =>
      intro fuel r hf
      match fuel, hf with
      | fuel + 1, hf =>
          simp only [List.map_cons, List.flatten_cons, List.append_assoc]
          rw [parseJStrBodyF_escapeChar c fuel]
          rw [ih fuel r (by simpa using Nat.lt_of_succ_lt_succ hf)]
          rfl

theorem parseJString_encode (s : String) (r : List Char) :
    parseJString (encodeJString s ++ r) = some (s, r) := by
  unfold parseJString encodeJString
  have hshape : ('"' :: ((s.data.map escapeChar).flatten ++ ['"'])) ++ r
      = '"' :: ((s.data.map escapeChar).flatten ++ '"' :: r) := by simp
  rw [hshape]
  dsimp only
  rw [if_pos rfl]
  have hfuel : s.data.length < ((s.data.map escapeChar).flatten ++ '"' :: r).length := by
    rw [List.length_append]
    have := length_le_flatten_escape s.data
    simp only [List.length_cons]
    omega
  rw [parseJStrBodyF_encode s.data _ r hfuel]
  rfl

theorem digit_ne_dash (c : Char) (h : c.isDigit = true) : c ≠ '-' := by
  intro hc
  subst hc
  exact absurd h (by decide)

theorem parseNatAux_digits (ds : List Char) :
    ∀ (acc : Nat) (r : List Char), (∀ c ∈ ds, c.isDigit = true) →
      parseNatAux acc (ds ++ r)
        = parseNatAux (ds.foldl (fun a c => a * 10 + (c.toNat - 48)) acc) r := by
  induction ds with
  | nil => intro acc r _; simp
  | cons c ds ih =>
      intro acc r h
      have hc : c.isDigit = true := h c (by simp)
      simp only [List.cons_append, List.foldl_cons]
      conv_lhs => rw [parseNatAux]
      rw [if_pos hc]
      exact ih _ r (fun x hx => h x (by simp [hx]))

theorem parseNatAux_stop (acc : Nat) (c : Char) (cs : List Char) (h : c.isDigit = false) :
    parseNatAux acc (c :: cs) = (acc, c :: cs) := by
  conv_lhs => rw [parseNatAux]
  rw [if_neg (by simp [h])]

theorem natToCharsAux_spec (fuel : Nat) :
    ∀ n, n < fuel →
      (∀ c ∈ natToCharsAux fuel n, c.isDigit = true)
      ∧ (∀ acc, (natToCharsAux fuel n).foldl (fun a c => a * 10 + (c.toNat - 48)) acc
          = acc * 10 ^ (natToCharsAux fuel n).length + n)
      ∧ (∃ d ds, natToCharsAux fuel n = d :: ds) := by
  induction fuel with
  | zero => intro n h; omega
  | succ fuel ih =>
      intro n h
      unfold natToCharsAux
      by_cases h10 : n < 10
      · rw [if_pos h10]
        refine ⟨?_, ?_, decDigit n, [], rfl⟩
        · intro c hc
          simp only [List.mem_singleton] at hc
          subst hc
          exact decDigit_isDigit n h10
        · intro acc
          simp only [List.foldl_cons, List.foldl_nil, List.length_singleton, pow_one]
          rw [decDigit_toNat n h10]
          omega
      · rw [if_neg h10]
        obtain ⟨ihd, ihf, d, ds, hds⟩ := ih (n / 10) (by omega)
        have hmod : n % 10 < 10 := Nat.mod_lt _ (by norm_num)
        refine ⟨?_, ?_, ?_⟩
        · intro c hc
          rcases List.mem_append.mp hc with hc | hc
          · exact ihd c hc
          · simp only [List.mem_singleton] at hc
            subst hc
            exact decDigit_isDigit _ hmod
        · intro acc
          rw [List.foldl_append, ihf acc]
          simp only [List.foldl_cons, List.foldl_nil, List.length_append,
            List.length_singleton]
          rw [decDigit_toNat _ hmod, pow_succ]
          have expand : (acc * 10 ^ (natToCharsAux fuel (n / 10)).length + n / 10) * 10
              + (48 + n % 10 - 48)
              = acc * (10 ^ (natToCharsAux fuel (n / 10)).length * 10)
                + (n / 10 * 10 + n % 10) := by ring_nf; omega
          rw [expand]
          have hm : n / 10 * 10 + n % 10 = n := by omega
          rw [hm]
        · exact ⟨d, ds ++ [decDigit (n % 10)], by rw [hds, List.cons_append]⟩

theorem parseNatAux_encode_comma (n : Nat) (tail : List Char) :
    parseNatAux 0 (natToChars n ++ ',' :: tail) = (n, ',' :: tail) := by
  obtain ⟨hd, hf, _⟩ := natToCharsAux_spec (n + 1) n (by omega)
  unfold natToChars
  rw [parseNatAux_digits _ 0 _ hd, hf 0]
  simp only [Nat.zero_mul, Nat.zero_add]
  exact parseNatAux_stop n ',' tail (by decide)

theorem parseInt_intToChars (z : Int) (tail : List Char) :
    parseInt (intToChars z ++ ',' :: tail) = some (z, ',' :: tail) := by
  unfold intToChars
  by_cases hz : z < 0
  · rw [if_pos hz]
    obtain ⟨hdig, _, d, ds, hds⟩ := natToCharsAux_spec (z.natAbs + 1) z.natAbs (by omega)
    unfold natToChars
    rw [show ('-' :: natToCharsAux (z.natAbs + 1) z.natAbs) ++ ',' :: tail
      = '-' :: (natToCharsAux (z.natAbs + 1) z.natAbs ++ ',' :: tail) from rfl]
    unfold parseInt
    dsimp only
    rw [if_pos rfl, hds, List.cons_append]
    have hd1 : d.isDigit = true := hdig d (by simp [hds])
    dsimp only
    rw [if_pos hd1]
    rw [← List.cons_append, ← hds]
    have hnat := parseNatAux_encode_comma z.natAbs tail
    unfold natToChars at hnat
    rw [hnat]
    have : -(z.natAbs : Int) = z := by omega
    rw [this]
  · rw [if_neg hz]
    obtain ⟨hdig, _, d, ds, hds⟩ := natToCharsAux_spec (z.toNat + 1) z.toNat (by omega)
    unfold natToChars
    rw [hds, List.cons_append]
    have hd1 : d.isDigit = true := hdig d (by simp [hds])
    unfold parseInt
    dsimp only
    rw [if_neg (by simpa using digit_ne_dash d hd1), if_pos hd1]
    rw [← List.cons_append, ← hds]
    have hnat := parseNatAux_encode_comma z.toNat tail
    unfold natToChars at hnat
    rw [hnat]
    have : (z.toNat : Int) = z := by omega
    rw [this]

theorem dropLiteral_exact (l : List Char) :
    ∀ cs : List Char, dropLiteral l (l ++ cs) = some cs := by
  induction l with
  | nil => intro cs; rfl
  | cons c l ih =>
      intro cs
      simp only [List.cons_append]
      unfold dropLiteral
      rw [if_pos rfl]
      exact ih cs

theorem parseMsgObj_encode (m : Int × String × String) (rest : List Char) :
    parseMsgObj (encodeMsgObj m ++ rest) = some (m, rest) := by
  obtain ⟨t, k, v⟩ := m
  unfold parseMsgObj encodeMsgObj
  simp only [dropLiteral, Char.reduceEq, reduceIte, Option.pure_def, Option.bind_eq_bind,
    Option.some_bind, Option.none_bind, List.append_eq, List.cons_append, List.nil_append,
    List.append_assoc]
  rw [parseInt_intToChars t]
  simp only [dropLiteral, Char.reduceEq, reduceIte, Option.some_bind]
  rw [parseJString_encode k]
  simp only [dropLiteral, Char.reduceEq, reduceIte, Option.some_bind]
  rw [parseJString_encode v]
  simp only [dropLiteral, Char.reduceEq, reduceIte, Option.some_bind]

theorem parseMsgsAux_encode (ms : List (Int × String × String)) :
    ∀ (m : Int × String × String) (fuel : Nat) (rest : List Char), ms.length < fuel →
      parseMsgsAux fuel (joinCommaSep ((m :: ms).map encodeMsgObj) ++ ']' :: '\x7d' :: rest)
        = some (m :: ms, rest) := by
  induction ms with
  | nil =>
      intro m fuel rest hf
      match fuel, hf with
      | fuel + 1, _ =>
          simp only [List.map_cons, List.map_nil]
          rw [show joinCommaSep [encodeMsgObj m] = encodeMsgObj m from rfl]
          unfold parseMsgsAux
          rw [parseMsgObj_encode m]
          simp only [dropLiteral, Char.reduceEq, reduceIte, Option.pure_def,
            Option.bind_eq_bind, Option.some_bind]
  | cons m2 ms ih =>
      intro m fuel rest hf
      match fuel, hf with
      | fuel + 1, hf =>
          simp only [List.map_cons]
          rw [show joinCommaSep (encodeMsgObj m :: encodeMsgObj m2 :: ms.map encodeMsgObj)
            = encodeMsgObj m ++ ", ".data ++ joinCommaSep (encodeMsgObj m2 :: ms.map encodeMsgObj)
            from rfl]
          rw [show (", ".data : List Char) = ',' :: ' ' :: [] from rfl]
          simp only [List.append_assoc, List.cons_append, List.nil_append]
          unfold parseMsgsAux
          rw [parseMsgObj_encode m]
          simp only [Char.reduceEq, reduceIte, Option.pure_def, Option.bind_eq_bind,
            Option.some_bind]
          have hrec := ih m2 fuel rest (by simpa using Nat.lt_of_succ_lt_succ hf)
          simp only [List.map_cons] at hrec
          rw [hrec]
          simp only [Option.some_bind]

theorem encodeMsgObj_head (m : Int × String × String) :
    ∃ t, encodeMsgObj m = '\x7b' :: t := by
  refine ⟨"\"type\": ".data ++ (intToChars m.1 ++ (", \"key\": ".data
    ++ (encodeJString m.2.1 ++ (", \"value\": ".data
    ++ (encodeJString m.2.2 ++ ['\x7d']))))), ?_⟩
  unfold encodeMsgObj
  simp only [List.append_assoc]
  rfl

theorem length_le_joinCommaSep (ms : List (Int × String × String)) :
    ms.length ≤ (joinCommaSep (ms.map encodeMsgObj)).length := by
  induction ms with
  | nil => simp [joinCommaSep]
  | cons m ms ih =>
      obtain ⟨t, ht⟩ := encodeMsgObj_head m
      cases ms with
      | nil => simp [joinCommaSep, ht]
      | cons m2 ms2 =>
          simp only [List.map_cons] at ih ⊢
          rw [show joinCommaSep (encodeMsgObj m :: encodeMsgObj m2 :: ms2.map encodeMsgObj)
            = encodeMsgObj m ++ ", ".data ++ joinCommaSep (encodeMsgObj m2 :: ms2.map encodeMsgObj)
            from rfl]
          simp only [List.length_cons, List.length_append, ht]
          simp only [List.length_cons] at ih
          omega

theorem joinCommaSep_head (m : Int × String × String) (ms : List (Int × String × String)) :
    ∃ u, joinCommaSep ((m :: ms).map encodeMsgObj) = '\x7b' :: u := by
  obtain ⟨t, ht⟩ := encodeMsgObj_head m
  cases ms with
  | nil => exact ⟨t, by simp [joinCommaSep, ht]⟩
  | cons m2 ms2 =>
      refine ⟨t ++ (", ".data ++ joinCommaSep (encodeMsgObj m2 :: ms2.map encodeMsgObj)), ?_⟩
      simp only [List.map_cons]
      rw [show joinCommaSep (encodeMsgObj m :: encodeMsgObj m2 :: ms2.map encodeMsgObj)
        = encodeMsgObj m ++ ", ".data ++ joinCommaSep (encodeMsgObj m2 :: ms2.map encodeMsgObj)
        from rfl, ht]
      simp [List.cons_append, List.append_assoc]

theorem parseBody_encode (jid : Int) (ms : List (Int × String × String)) :
    parseBody (encodeBody jid ms) = some (jid, ms) := by
  unfold parseBody encodeBody
  simp only [dropLiteral, Char.reduceEq, reduceIte, Option.pure_def, Option.bind_eq_bind,
    Option.some_bind, Option.none_bind, List.append_eq, List.cons_append, List.nil_append,
    List.append_assoc]
  rw [parseInt_intToChars jid]
  simp only [dropLiteral, Char.reduceEq, reduceIte, Option.some_bind]
  cases ms with
  | nil =>
      rw [show joinCommaSep (([] : List (Int × String × String)).map encodeMsgObj) = []
        from rfl]
      simp only [List.nil_append, Char.reduceEq, reduceIte, dropLiteral, Option.some_bind]
  | cons m ms =>
      obtain ⟨u, hu⟩ := joinCommaSep_head m ms
      rw [hu]
      simp only [List.cons_append, Char.reduceEq, reduceIte]
      rw [← List.cons_append, ← hu]
      have hlen : ms.length
          < (joinCommaSep ((m :: ms).map encodeMsgObj) ++ ']' :: '\x7d' :: []).length := by
        have h1 := length_le_joinCommaSep (m :: ms)
        simp only [List.length_append, List.length_cons] at h1 ⊢
        omega
      rw [parseMsgsAux_encode ms m _ [] hlen]
      simp only [Option.some_bind, reduceIte]

theorem hexDigitChar_ascii (k : Nat) (h : k < 16) : (hexDigitChar k).toNat < 128 := by
  interval_cases k <;> decide

theorem mem_lit_ascii (lit : List Char) (hlit : lit.all (fun c => decide (c.toNat < 128)) = true) :
    ∀ x ∈ lit, x.toNat < 128 := by
  intro x hx
  have := List.all_eq_true.mp hlit x hx
  simpa using this

theorem hex4_ascii (m : Nat) : ∀ x ∈ hex4 m, x.toNat < 128 := by
  intro x hx
  simp only [hex4, List.mem_cons, List.not_mem_nil, or_false] at hx
  rcases hx with h | h | h | h <;> subst h <;>
    exact hexDigitChar_ascii _ (Nat.mod_lt _ (by norm_num))

theorem escapeChar_ascii (c : Char) : ∀ x ∈ escapeChar c, x.toNat < 128 := by
  intro x hx
  unfold escapeChar at hx
  split_ifs at hx with h1 h2 h3 h4
  · exact mem_lit_ascii _ (by decide) x hx
  · exact mem_lit_ascii _ (by decide) x hx
  · simp only [List.mem_cons] at hx
    rcases hx with h | h | h
    · subst h; decide
    · subst h; decide
    · exact hex4_ascii _ x h
  · simp only [List.mem_append, List.mem_cons] at hx
    rcases hx with (h | h | h) | (h | h | h)
    · subst h; decide
    · subst h; decide
    · exact hex4_ascii _ x h
    · subst h; decide
    · subst h; decide
    · exact hex4_ascii _ x h
  · simp only [List.mem_singleton] at hx
    subst hx
    push_neg at h3
    omega

theorem encodeJString_ascii (s : String) : ∀ x ∈ encodeJString s, x.toNat < 128 := by
  intro x hx
  unfold encodeJString at hx
  simp only [List.mem_cons, List.mem_append, List.mem_flatten, List.mem_map,
    List.mem_singleton, List.not_mem_nil, or_false] at hx
  rcases hx with h | ⟨l, ⟨c, _, hc⟩, hl⟩ | h
  · subst h; decide
  · subst hc; exact escapeChar_ascii c x hl
  · subst h; decide

theorem isDigit_ascii (c : Char) (h : c.isDigit = true) : c.toNat < 128 := by
  unfold Char.isDigit at h
  simp only [Bool.and_eq_true, decide_eq_true_eq] at h
  obtain ⟨h1, h2⟩ := h
  have h2n : c.toNat ≤ 57 := h2
  omega

theorem intToChars_ascii (z : Int) : ∀ x ∈ intToChars z, x.toNat < 128 := by
  intro x hx
  unfold intToChars at hx
  split_ifs at hx with h1
  · simp only [List.mem_cons] at hx
    rcases hx with h | h
    · subst h; decide
    · exact isDigit_ascii x ((natToCharsAux_spec (z.natAbs + 1) z.natAbs (by omega)).1 x h)
  · exact isDigit_ascii x ((natToCharsAux_spec (z.toNat + 1) z.toNat (by omega)).1 x hx)

theorem encodeMsgObj_ascii (m : Int × String × String) :
    ∀ x ∈ encodeMsgObj m, x.toNat < 128 := by
  intro x hx
  unfold encodeMsgObj at hx
  simp only [List.mem_append] at hx
  rcases hx with ((((((h | h) | h) | h) | h) | h) | h)
  · exact mem_lit_ascii _ (by decide) x h
  · exact intToChars_ascii m.1 x h
  · exact mem_lit_ascii _ (by decide) x h
  · exact encodeJString_ascii m.2.1 x h
  · exact mem_lit_ascii _ (by decide) x h
  · exact encodeJString_ascii m.2.2 x h
  · exact mem_lit_ascii _ (by decide) x h

theorem joinCommaSep_ascii (ms : List (Int × String × String)) :
    ∀ x ∈ joinCommaSep (ms.map encodeMsgObj), x.toNat < 128 := by
  induction ms with
  | nil => intro x hx; simp [joinCommaSep] at hx
  | cons m ms ih =>
      intro x hx
      cases ms with
      | nil =>
          simp only [List.map_cons, List.map_nil] at hx
          rw [show joinCommaSep [encodeMsgObj m] = encodeMsgObj m from rfl] at hx
          exact encodeMsgObj_ascii m x hx
      | cons m2 ms2 =>
          simp only [List.map_cons] at hx ih
          rw [show joinCommaSep (encodeMsgObj m :: encodeMsgObj m2 :: ms2.map encodeMsgObj)
            = encodeMsgObj m ++ ", ".data ++ joinCommaSep (encodeMsgObj m2 :: ms2.map encodeMsgObj)
            from rfl] at hx
          simp only [List.mem_append] at hx
          rcases hx with (h | h) | h
          · exact encodeMsgObj_ascii m x h
          · exact mem_lit_ascii _ (by decide) x h
          · exact ih x h

theorem encodeBody_ascii (jid : Int) (ms : List (Int × String × String)) :
    ∀ x ∈ encodeBody jid ms, x.toNat < 128 := by
  intro x hx
  unfold encodeBody at hx
  simp only [List.mem_append] at hx
  rcases hx with (((h | h) | h) | h) | h
  · exact mem_lit_ascii _ (by decide) x h
  · exact intToChars_ascii jid x h
  · exact mem_lit_ascii _ (by decide) x h
  · exact joinCommaSep_ascii ms x h
  · exact mem_lit_ascii _ (by decide) x h

theorem mapM_charsToBytes (cs : List Char) (h : ∀ c ∈ cs, c.toNat < 128) :
    (charsToBytes cs).mapM (fun b => if b < 128 then some (Char.ofNat b) else none)
      = some cs := by
  induction cs with
  | nil => rfl
  | cons c cs ih =>
      unfold charsToBytes
      simp only [List.map_cons, List.mapM_cons]
      rw [if_pos (h c (by simp))]
      rw [Char.ofNat_toNat]
      have hrest := ih (fun x hx => h x (by simp [hx]))
      unfold charsToBytes at hrest
      rw [hrest]
      rfl

theorem decodeBody_encode (jid : Int) (ms : List (Int × String × String)) :
    decodeBody (charsToBytes (encodeBody jid ms)) = some (jid, ms) := by
  unfold decodeBody
  rw [mapM_charsToBytes _ (encodeBody_ascii jid ms)]
  simp only [Option.pure_def, Option.bind_eq_bind, Option.some_bind]
  exact parseBody_encode jid ms

theorem beBytes_roundtrip (n : Nat) (h : n < 4294967296) :
    beBytesToNat (lenToBytes4BE n) = n := by
  unfold beBytesToNat lenToBytes4BE
  simp only [List.foldl_cons, List.foldl_nil]
  omega

theorem recv_exact_chunk_exact (n : Nat) (bs : List Nat) (h0 : 0 < n)
    (h : bs.length = n) :
    recv_exact n [RecvEvent.chunk bs] = (some bs, []) := by
  cases bs with
  | nil => simp at h; omega
  | cons b bs' =>
      unfold recv_exact
      rw [recvExactAux]
      rw [if_neg (by simp; omega)]
      rw [if_pos (by simp [h])]
      simp only [List.nil_append]
      rw [recvExactAux]
      rw [if_pos (le_of_eq h.symm)]
      simp

theorem recv_exact_chunk_over (n : Nat) (bs : List Nat) (h0 : 0 < n)
    (h : n < bs.length) :
    recv_exact n [RecvEvent.chunk bs]
      = (some (bs.take n), [RecvEvent.chunk (bs.drop n)]) := by
  cases bs with
  | nil => simp at h
  | cons b bs' =>
      unfold recv_exact
      rw [recvExactAux]
      rw [if_neg (by simp; omega)]
      rw [if_neg (by simp only [List.length_nil, Nat.sub_zero]; omega)]
      simp only [List.length_nil, Nat.sub_zero, List.nil_append]
      simp

theorem encodeBody_head (jid : Int) (ms : List (Int × String × String)) :
    ∃ t, encodeBody jid ms = '\x7b' :: t := by
  refine ⟨"\"job_id\": ".data ++ (intToChars jid ++ (", \"messages\": [".data
    ++ (joinCommaSep (ms.map encodeMsgObj) ++ (']' :: ['\x7d'])))), ?_⟩
  unfold encodeBody
  simp only [List.append_assoc]
  rfl

theorem recvExactAux_some_length :
    ∀ (events : List RecvEvent) (expected : Nat) (acc : List Nat),
      acc.length ≤ expected → ∀ d rest,
      recvExactAux expected acc events = (some d, rest) → d.length = expected := by
  intro events
  induction events with
  | nil =>
      intro expected acc hle d rest h
      unfold recvExactAux at h
      by_cases hg : expected ≤ acc.length
      · rw [if_pos hg] at h
        injection h with h1 h2
        injection h1 with h1
        subst h1
        omega
      · rw [if_neg hg] at h
        exact absurd h (by simp)
  | cons e rest ih =>
      intro expected acc hle d r h
      unfold recvExactAux at h
      by_cases hg : expected ≤ acc.length
      · rw [if_pos hg] at h
        injection h with h1 h2
        injection h1 with h1
        subst h1
        omega
      · rw [if_neg hg] at h
        cases e with
        | timeout => exact ih expected acc hle d r h
        | chunk bs =>
            cases bs with
            | nil => exact absurd h (by simp)
            | cons b bs' =>
                dsimp only at h
                by_cases hlen : (b :: bs').length ≤ expected - acc.length
                · rw [if_pos hlen] at h
                  exact ih expected (acc ++ b :: bs') (by rw [List.length_append]; omega) d r h
                · rw [if_neg hlen] at h
                  injection h with h1 h2
                  injection h1 with h1
                  subst h1
                  rw [List.length_append, List.length_take]
                  omega

/-! ## Claim theorems -/

/-- C1 counterexample: the claim "once job_status is a terminal state it
never reverts: no subsequent operation (a reconciler pass via
update_job_statuses_in_place, ...) changes job_status of a terminal job"
is false at a concrete input: a registry job already COMPLETED (terminal)
is overwritten to RUNNING by a local reconciler pass whose shared entry
still reports RUNNING — lines 132-136 overwrite unconditionally. -/
theorem reconciler_overwrites_terminal_status_cx :
    update_job_statuses_in_place
        [{ job_id := some 7, job_status := some JobStatus.COMPLETED }]
        [(3, { main_pid := some 7, status := some JobStatus.RUNNING })] none true
      = some ([{ job_id := some 7, job_status := some JobStatus.RUNNING,
                 csv_row_id := some 3, updated := true }], true)
    ∧ JobStatus.COMPLETED.isTerminal = true
    ∧ JobStatus.RUNNING ≠ JobStatus.COMPLETED := by
  refine ⟨rfl, rfl, by decide⟩

/-- C1 amended: a terminal `job_status` is never changed by the
cancellation forcing step (job_monitor.py 480-489), which only maps
RUNNING/PENDING jobs to CANCELLED; a reconciler pass, however, writes
the status it computes from the shared/accounting view verbatim, so a
terminal job keeps its status only when that computed status equals the
stored one — there is no terminal-state guard. -/
theorem terminal_preservation_amended :
    (∀ (jobs : List Job) (i : Nat) (j : Job) (s : JobStatus),
        jobs[i]? = some j → j.job_status = some s → s.isTerminal = true →
        (forceCancelJobs jobs)[i]? = some j)
    ∧ (∀ (local_run : Bool) (stats : List (Int × SlurmStat)) (jobs : List Job)
        (rid ref : Int) (e : SharedEntry) (i : Nat) (j : Job),
        (if local_run then e.main_pid else e.job_id) = some ref →
        find_job_idx jobs ref = some i → jobs[i]? = some j →
        ∃ j', updateEntryStep local_run stats jobs rid e = some (jobs.set i j')
          ∧ j'.job_status = (reconcileComputed local_run stats ref e).1) := by
  constructor
  · intro jobs i j s hget hstat hterm
    have h1 : j.job_status ≠ some JobStatus.RUNNING := by
      rw [hstat]
      intro hc
      injection hc with hc
      subst hc
      exact absurd hterm (by decide)
    have h2 : j.job_status ≠ some JobStatus.PENDING := by
      rw [hstat]
      intro hc
      injection hc with hc
      subst hc
      exact absurd hterm (by decide)
    simp [forceCancelJobs, List.getElem?_map, hget, h1, h2]
  · intro lr stats jobs rid ref e i j href hfind hget
    obtain ⟨j', hstep, hstat, _⟩ := updateEntryStep_found lr stats jobs rid ref e i j
      href hfind hget
    exact ⟨j', hstep, hstat⟩

/-- C1 witness: the amended theorem applied at concrete inputs: a
COMPLETED job survives the forcing step unchanged, and a reconciler
step writes exactly the computed status. -/
theorem terminal_preservation_amended_witness :
    (forceCancelJobs [{ job_status := some JobStatus.COMPLETED }])[0]?
      = some { job_status := some JobStatus.COMPLETED }
    ∧ ∃ j', updateEntryStep true []
          [{ job_id := some 7, job_status := some JobStatus.COMPLETED }]
          3 { main_pid := some 7, status := some JobStatus.RUNNING }
        = some (([{ job_id := some 7, job_status := some JobStatus.COMPLETED }] : List Job).set 0 j')
      ∧ j'.job_status
          = (reconcileComputed true [] 7
              { main_pid := some 7, status := some JobStatus.RUNNING }).1 :=
  ⟨terminal_preservation_amended.1 _ 0 _ JobStatus.COMPLETED rfl rfl rfl,
   terminal_preservation_amended.2 true [] _ 3 7 _ 0 _ rfl rfl rfl⟩

/-- C2 counterexample: the claim "an id absent from the batched
accounting result ... else is left unresolved for that pass ... never
becomes FAILED or an unknown/None status because of the absence" is
false at a concrete input: a tracked id absent from a non-empty `sacct`
result whose shared entry has no `"status"` key gets its registry
`job_status` overwritten from RUNNING to `None` (job_submission.py
104-107 and 132-136). -/
theorem absent_id_without_status_set_to_none_cx :
    update_job_statuses_in_place
        [{ job_id := some 11, job_status := some JobStatus.RUNNING }]
        [(0, { job_id := some 11 })]
        (some [(99, { state := "RUNNING", exitCode := "0:0" })]) false
      = some ([{ job_id := some 11, job_status := none, csv_row_id := some 0,
                 updated := true }], true)
    ∧ List.lookup (11 : Int)
        [((99 : Int), ({ state := "RUNNING", exitCode := "0:0" } : SlurmStat))] = none :=
  ⟨rfl, rfl⟩

/-- C2 amended: in a non-local reconciler pass, a tracked id absent from
the (non-empty) batched accounting result has its registry status set to
exactly the shared entry's recorded `status` — the last self-reported
status when one exists, and `None` (unknown) when none was recorded.
The absence alone therefore never manufactures FAILED; FAILED can arrive
only as the recorded status itself. -/
theorem absent_id_fallback_amended :
    ∀ (s : List (Int × SlurmStat)) (rid ref : Int) (e : SharedEntry)
      (jobs : List Job) (i : Nat) (j : Job),
      s ≠ [] → e.job_id = some ref → s.lookup ref = none →
      find_job_idx jobs ref = some i → jobs[i]? = some j →
      ∃ jobs', update_job_statuses_in_place jobs [(rid, e)] (some s) false
          = some (jobs', true)
        ∧ (jobs'[i]?).map Job.job_status = some e.status := by
  intro s rid ref e jobs i j hs he hlk hfind hget
  obtain ⟨j', hstep, hstat, _⟩ := updateEntryStep_found false s jobs rid ref e i j
    (by simpa using he) hfind hget
  refine ⟨jobs.set i j', ?_, ?_⟩
  · unfold update_job_statuses_in_place
    simp only [List.mapM_cons, List.mapM_nil, Bool.false_eq_true, if_false, he,
      Option.pure_def, Option.bind_eq_bind, Option.some_bind]
    rw [if_neg hs]
    rw [processEntries_singleton false s jobs (jobs.set i j') rid e hstep]
    rfl
  · rw [getElem?_of_set_self hget]
    simp [hstat, reconcileComputed_absent_status s ref e hlk]

/-- C2 witness: the amended theorem at a concrete input — id 11 absent
from a result covering only id 99 retains its recorded PENDING status. -/
theorem absent_id_fallback_amended_witness :
    ∃ jobs', update_job_statuses_in_place
        [{ job_id := some 11, job_status := some JobStatus.COMPLETED }]
        [(0, { job_id := some 11, status := some JobStatus.PENDING })]
        (some [(99, { state := "RUNNING", exitCode := "0:0" })]) false
      = some (jobs', true)
    ∧ (jobs'[0]?).map Job.job_status = some (some JobStatus.PENDING) :=
  absent_id_fallback_amended _ 0 11 _ _ 0 _ (by decide) rfl rfl rfl rfl

/-- C3: the monitor's per-tick submission loop never pushes the
concurrently-active count (measured active jobs plus in-flight
submissions) above a ceiling `C ≥ 0` it starts at or below, and with
`C = -1` it dispatches every pending job unthrottled. -/
theorem concurrency_ceiling_respected :
    (∀ (maxC cur : Int) (pending active : List Nat), 0 ≤ maxC → cur ≤ maxC →
        (dispatchLoop maxC cur pending active).1 ≤ maxC)
    ∧ (∀ (cur : Int) (pending active : List Nat),
        dispatchLoop (-1) cur pending active
          = (cur + pending.length, [], active ++ pending)) :=
  ⟨fun maxC cur pending active h1 h2 => dispatchLoop_ceiling pending maxC cur active h1 h2,
   fun cur pending active => dispatchLoop_unlimited pending cur active⟩

/-- C3 witness: with ceiling 2 and 4 pending jobs the count stays at or
below 2; with ceiling -1 all 3 pending jobs are dispatched. -/
theorem concurrency_ceiling_respected_witness :
    (dispatchLoop 2 0 [0, 1, 2, 3] []).1 ≤ 2
    ∧ dispatchLoop (-1) 0 [0, 1, 2] [] = (3, [], [0, 1, 2]) :=
  ⟨concurrency_ceiling_respected.1 2 0 [0, 1, 2, 3] [] (by decide) (by decide),
   by simpa using concurrency_ceiling_respected.2 0 [0, 1, 2] []⟩

/-- C4: a local job whose poll loop observes the cleared run-enable flag
(`run_jobs_flag = 0`) while the process is still alive is recorded
CANCELLED — never FAILED — whatever return code the killed process
shows, because `update_job_status` is called with `cancelled=True`
(job_submission.py 220-237, 147-148). -/
theorem killed_after_shutdown_cancelled :
    ∀ (flags : List Bool) (killedRc exitRc : Int), false ∈ flags →
      (submitLocalLoop flags killedRc exitRc).1.1 = JobStatus.CANCELLED
      ∧ (submitLocalLoop flags killedRc exitRc).1.1 ≠ JobStatus.FAILED
      ∧ (∀ rc : Int, update_job_status rc true = (JobStatus.CANCELLED, rc)) := by
  intro flags k ex h
  rw [submitLocalLoop_killed flags k ex h]
  exact ⟨rfl, by simp, fun rc => rfl⟩

/-- C4 witness: a job killed after the second poll (killed process shows
return code -9) is recorded CANCELLED. -/
theorem killed_after_shutdown_cancelled_witness :
    (submitLocalLoop [true, false] (-9) 0).1.1 = JobStatus.CANCELLED
    ∧ (submitLocalLoop [true, false] (-9) 0).1.1 ≠ JobStatus.FAILED
    ∧ (∀ rc : Int, update_job_status rc true = (JobStatus.CANCELLED, rc)) :=
  killed_after_shutdown_cancelled [true, false] (-9) 0 (by decide)

/-- C5 counterexample: the claim "every further signal is logged and
ignored" is false at a concrete input: a second SIGINT delivered in
immediate succession — after the first was honored but before the
cancellation sequence sets `is_cancelling` — is ignored silently, with
no log line (job_monitor.py 122-127 fall through without logging). -/
theorem second_signal_unlogged_cx :
    signal_handler (signal_handler initFlags).1 = ((signal_handler initFlags).1, [])
    ∧ (signal_handler initFlags).1.is_cancelling = false
    ∧ (signal_handler initFlags).2 ≠ [] := by
  refine ⟨rfl, rfl, by decide⟩

/-- C5 amended: delivering SIGINT two or more times produces exactly one
DRAINING sequence: the handler is idempotent on the flag state, only the
first signal while running flips `should_exit`/`run_jobs_flag`, and
every further signal leaves the state unchanged — logged when
cancellation is already in progress, silently ignored before that. -/
theorem shutdown_signal_idempotent_amended :
    (∀ s : MonitorFlags, (signal_handler (signal_handler s).1).1 = (signal_handler s).1)
    ∧ signal_handler initFlags = (⟨true, true, false, 0⟩,
        ["Received exit signal. Preparing to terminate all jobs..."])
    ∧ (∀ s : MonitorFlags, s.signal_received = true → s.is_cancelling = false →
        signal_handler s = (s, []))
    ∧ (∀ s : MonitorFlags, s.is_cancelling = true →
        signal_handler s = (s, ["Cancellation in progress, please wait..."])) := by
  refine ⟨?_, rfl, ?_, ?_⟩
  · intro s
    unfold signal_handler
    by_cases h1 : s.is_cancelling
    · simp [h1]
    · by_cases h2 : s.signal_received
      · simp [h1, h2]
      · simp [h1, h2]
  · intro s h1 h2
    unfold signal_handler
    simp [h1, h2]
  · intro s h
    unfold signal_handler
    simp [h]

/-- C5 witness: the amended theorem at concrete states — a signal after
the first (not yet cancelling) is silently ignored; one during
cancellation is logged and ignored. -/
theorem shutdown_signal_idempotent_amended_witness :
    signal_handler ⟨true, true, false, 0⟩ = (⟨true, true, false, 0⟩, [])
    ∧ signal_handler ⟨true, true, true, 0⟩
        = (⟨true, true, true, 0⟩, ["Cancellation in progress, please wait..."]) :=
  ⟨shutdown_signal_idempotent_amended.2.2.1 _ rfl rfl,
   shutdown_signal_idempotent_amended.2.2.2 _ rfl⟩

/-- C8 counterexample: the claim "retrying up to the configured retry
count" is false at a concrete input: after 4 consecutive submission
failures — more than the only configured retry constant in the module
(`max_retries = 3`) — index 0 is still re-enqueued and dispatched again;
the monitor loop keeps no per-index retry counter at all. -/
theorem submission_retry_unbounded_cx :
    (fun st => failingSubmissionTick (-1) (SubmitResult.code 1) st)^[4] (0, [0]) = (0, [0])
    ∧ (dispatchLoop (-1) 0 [0] []).2.2 = [0] := by
  refine ⟨by decide, by decide⟩

/-- C8 amended: a submission whose async result is non-zero or raises
decrements the active estimate and re-enqueues the index at the back of
the pending queue, and this retry repeats without any bound — the fault
is never fatal to the batch (an always-failing submission leaves the
loop state unchanged after every tick, forever). -/
theorem submission_fault_requeued_amended :
    (∀ (cur : Int) (pending : List Nat) (i : Nat) (r : SubmitResult),
        submitResultNonZero r = true →
        checkCompleted cur pending [(i, Submission.done r)]
          = (cur - 1, pending ++ [i], []))
    ∧ (∀ (cur : Int) (pending : List Nat) (i : Nat),
        checkCompleted cur pending [(i, Submission.raised)]
          = (cur - 1, pending ++ [i], []))
    ∧ (∀ n : Nat,
        (fun st => failingSubmissionTick (-1) (SubmitResult.code 1) st)^[n] (0, [0])
          = (0, [0])) := by
  refine ⟨fun cur p i r h => checkCompleted_single_done cur p i r h,
          fun cur p i => by simp [checkCompleted], ?_⟩
  intro n
  induction n with
  | zero => rfl
  | succ k ih =>
      have h0 : failingSubmissionTick (-1) (SubmitResult.code 1) ((0 : Int), [(0 : Nat)])
          = ((0 : Int), [(0 : Nat)]) := by decide
      rw [Function.iterate_succ_apply]
      rw [h0]
      exact ih

/-- C8 witness: the amended theorem at a concrete input — a failed
submission of index 3 with result 2 decrements the estimate from 5 to 4
and re-enqueues 3 behind 7. -/
theorem submission_fault_requeued_amended_witness :
    checkCompleted 5 [7] [(3, Submission.done (SubmitResult.code 2))] = (4, [7, 3], []) := by
  have h := submission_fault_requeued_amended.1 5 [7] 3 (SubmitResult.code 2) (by decide)
  simpa using h

/-- C9 counterexample: the claim "every Status Reconciler pass computes
its result (including the batched cluster accounting query) outside the
Registry lock" is false on the code: the monitor tick wraps the whole
`update_job_statuses_in_place` call — and hence the blocking `sacct`
query it performs — in `with job_manager.manager_lock`
(job_monitor.py 316-319, job_submission.py 80). -/
theorem sacct_query_under_lock_cx :
    blockingCallUnderLock (monitorReconcileEvents false) = true := by decide

/-- C9 amended: the non-local reconciler pass performs its blocking
`sacct` accounting query while holding the Registry lock (only the
local-run pass is free of blocking calls under the lock); the apply step
does run under the lock in both modes. -/
theorem reconciler_lock_discipline_amended :
    (∀ lr : Bool, appliesUnderLock (monitorReconcileEvents lr) = true)
    ∧ blockingCallUnderLock (monitorReconcileEvents false) = true
    ∧ blockingCallUnderLock (monitorReconcileEvents true) = false := by decide

/-- C10: a local job that is spawned and later exits non-zero makes
`submit_job` return that exit code, and the monitor sweep treats it
exactly like a failed submission — decrementing the active count,
re-enqueueing the index at the back of the pending queue, from where the
unlimited dispatch loop submits (and so executes) it again. -/
theorem local_nonzero_exit_resubmitted :
    (∀ (flags : List Bool) (killedRc exitRc : Int), (∀ f ∈ flags, f = true) →
        submitLocalLoop flags killedRc exitRc
          = ((if exitRc = 0 then JobStatus.COMPLETED else JobStatus.FAILED, exitRc),
             SubmitResult.code exitRc))
    ∧ (∀ (cur : Int) (pending : List Nat) (i : Nat) (rc : Int), rc ≠ 0 →
        checkCompleted cur pending [(i, Submission.done (SubmitResult.code rc))]
          = (cur - 1, pending ++ [i], []))
    ∧ (∀ (cur : Int) (pending : List Nat) (i : Nat),
        (dispatchLoop (-1) cur (pending ++ [i]) []).2.2 = pending ++ [i]) := by
  refine ⟨submitLocalLoop_all_true, ?_, ?_⟩
  · intro cur p i rc h
    exact checkCompleted_single_done cur p i _ (by simp [submitResultNonZero, h])
  · intro cur p i
    rw [dispatchLoop_unlimited]
    simp

/-- C10 witness: a job that runs to completion with exit code 3 returns
3, is swept as a failure, re-enqueued, and re-dispatched. -/
theorem local_nonzero_exit_resubmitted_witness :
    submitLocalLoop [true, true] 0 3 = ((JobStatus.FAILED, 3), SubmitResult.code 3)
    ∧ checkCompleted 1 [] [(0, Submission.done (SubmitResult.code 3))] = (0, [0], [])
    ∧ (dispatchLoop (-1) 0 ([] ++ [0]) []).2.2 = [] ++ [0] := by
  refine ⟨?_, ?_, local_nonzero_exit_resubmitted.2.2 0 [] 0⟩
  · have h := local_nonzero_exit_resubmitted.1 [true, true] 0 3 (by decide)
    simpa using h
  · have h := local_nonzero_exit_resubmitted.2.1 1 [] 0 3 (by decide)
    simpa using h

/-- C7: encoding an envelope on the client (4-byte big-endian length
prefix followed by the UTF-8 JSON body built by `sync_with_remote`) and
decoding it through the manager's per-connection loop yields the
identical `(job_id, messages)` tuple, for every integer `job_id` and
every message list with string keys and values. -/
theorem wire_roundtrip :
    ∀ (jid : Int) (msgs : List (Int × String × String)) (p : List Nat),
      clientPacket jid msgs = some p →
      handleIteration [RecvEvent.chunk p] = (IterResult.applied jid msgs, []) := by
  intro jid msgs p hp
  unfold clientPacket at hp
  by_cases hlen : (charsToBytes (encodeBody jid msgs)).length < 4294967296
  case neg => rw [if_neg hlen] at hp; exact absurd hp (by simp)
  rw [if_pos hlen] at hp
  injection hp with hp
  subst hp
  obtain ⟨t, ht⟩ := encodeBody_head jid msgs
  set body := charsToBytes (encodeBody jid msgs) with hbdef
  set L := body.length with hL
  have hpos : 0 < L := by
    rw [hL, hbdef, ht]
    simp [charsToBytes]
  have h4 : (lenToBytes4BE L).length = 4 := by simp [lenToBytes4BE]
  have hp_len : (lenToBytes4BE L ++ body).length = 4 + L := by
    rw [List.length_append, h4, hL]
  have htake : (lenToBytes4BE L ++ body).take 4 = lenToBytes4BE L := by
    rw [← h4]
    exact List.take_left _ _
  have hdrop : (lenToBytes4BE L ++ body).drop 4 = body := by
    rw [← h4]
    exact List.drop_left _ _
  have hhdr : recv_exact 4 [RecvEvent.chunk (lenToBytes4BE L ++ body)]
      = (some (lenToBytes4BE L), [RecvEvent.chunk body]) := by
    rw [recv_exact_chunk_over 4 _ (by norm_num) (by omega), htake, hdrop]
  unfold handleIteration
  rw [hhdr]
  dsimp only
  rw [beBytes_roundtrip L hlen]
  rw [recv_exact_chunk_exact L body hpos hL.symm]
  dsimp only
  rw [if_neg (by omega : ¬ body.length < L)]
  rw [hbdef, decodeBody_encode jid msgs]

/-- C7 witness: the round-trip theorem applied to a concrete packet. -/
theorem wire_roundtrip_witness :
    handleIteration
        [RecvEvent.chunk ((clientPacket 5 [(2, "acc", "0.9")]).getD [])]
      = (IterResult.applied 5 [(2, "acc", "0.9")], []) :=
  wire_roundtrip 5 [(2, "acc", "0.9")] _ rfl

/-- C6: a body read that cannot complete (the peer closed, or the stream
ends short of the declared 4-byte big-endian length) makes the
`handle_client` iteration terminate the connection with no Registry
mutation — `process_job_message` is never reached; moreover `_recv_exact`
can never return fewer bytes than requested: a successful read has
exactly the expected length, so a genuinely short read always surfaces
as the `None` case. -/
theorem short_body_read_no_mutation :
    (∀ (events rest : List RecvEvent) (len4 : List Nat) (registry : List Job),
        recv_exact 4 events = (some len4, rest) →
        (recv_exact (beBytesToNat len4) rest).1 = none →
        (handleIteration events).1 = IterResult.incomplete
        ∧ clientStepRegistry registry events = registry)
    ∧ (∀ (n : Nat) (evs : List RecvEvent) (d : List Nat) (r : List RecvEvent),
        recv_exact n evs = (some d, r) → d.length = n) := by
  constructor
  · intro events rest len4 registry h1 h2
    have hh : (handleIteration events).1 = IterResult.incomplete := by
      unfold handleIteration
      rw [h1]
      dsimp only
      rcases hq : recv_exact (beBytesToNat len4) rest with ⟨o, rest1⟩
      rw [hq] at h2
      simp only at h2
      subst h2
      rfl
    refine ⟨hh, ?_⟩
    unfold clientStepRegistry
    rw [hh]
  · intro n evs d r h
    exact recvExactAux_some_length evs n [] (by simp) d r h

/-- C6 witness: a declared 5-byte body of which only 2 bytes ever arrive
is dropped with the empty registry untouched, and a successful 4-byte
header read returns exactly 4 bytes. -/
theorem short_body_read_no_mutation_witness :
    ((handleIteration [RecvEvent.chunk [0, 0, 0, 5], RecvEvent.chunk [65, 66]]).1
        = IterResult.incomplete
      ∧ clientStepRegistry [] [RecvEvent.chunk [0, 0, 0, 5], RecvEvent.chunk [65, 66]] = [])
    ∧ ([0, 0, 0, 5] : List Nat).length = 4 :=
  ⟨short_body_read_no_mutation.1 _ [RecvEvent.chunk [65, 66]] [0, 0, 0, 5] [] rfl rfl,
   short_body_read_no_mutation.2 4 [RecvEvent.chunk [0, 0, 0, 5], RecvEvent.chunk [65, 66]]
     [0, 0, 0, 5] [RecvEvent.chunk [65, 66]] rfl⟩

end Stnd
